import Mathlib

/-!
Verification of the remark markdown printer (`src/printer-remark.js`).

The development shallowly embeds the printer: the AST node shape, the Doc
intermediate representation built by the `doc-builders` module, and the
`genericPrint` transformer with its helpers (`printBlock`, `printQuoted`,
`printLabel`, `intersperse`, `textToWords`, `printWrappingText`,
`flattenOnce`).  JavaScript exceptions become an `Except` result; the
in-place mutation performed by the paragraph case becomes explicit state
threading (each print returns the possibly-updated node next to the Doc).
Recursion over the AST is driven by a fuel parameter so that every
definition is structurally recursive and computable; fuel exhaustion is a
distinguished error that the source program (which recurses directly) never
produces.  The external collaborators (the escape/encode capability, the
`enclose-uri` / `enclose-title` helpers and the delegated remark-stringify
visitors for heading/html/footnoteReference) are injected as opaque
functions in a context record, exactly as the spec treats them.
-/

/-- Doc is the layout IR produced by the transformer.  Constructors mirror
the builders exported by `doc-builders` as the spec describes them: `text`
(a plain JavaScript string used as a Doc), `concat`, the four line kinds,
`group`, `fill`, `indent`, `markerBlock` and `ifBreak`. -/
inductive Doc where
  | text : String → Doc
  | concat : List Doc → Doc
  | line : Doc
  | softline : Doc
  | hardline : Doc
  | literalline : Doc
  | group : Doc → Doc
  | fill : List Doc → Doc
  | indent : Doc → Doc
  | markerBlock : String → Doc → Doc
  | ifBreak : Doc → Doc → Doc
deriving Repr

/-- Modelled from the spec: the construction-time contract of the `fill` builder.
`doc-builders` is not part of the excerpted sources; per the spec, `fill`
fails (a construction-time contract violation) if given an even-length
sequence, so a sequence is acceptable to `fill` exactly when its length is
odd. -/
def fillOk (parts : List Doc) : Prop := parts.length % 2 = 1

instance (parts : List Doc) : Decidable (fillOk parts) := by
  unfold fillOk; infer_instance

/-- AST nodes as consumed by the transformer: a `type` tag plus the fields
the printer reads (`value`, `lang`, `ordered`, `identifier`, `url`,
`title`, `alt`, `referenceType`, `children`).  Absent string fields are the
empty string, matching the JavaScript falsiness tests the code performs. -/
inductive Node where
  | mk : (ty : String) → (value : String) → (lang : String) → (ordered : Bool) →
         (identifier : String) → (url : String) → (title : String) →
         (alt : String) → (referenceType : String) → (children : List Node) → Node
deriving Repr

def Node.ty : Node → String
  | .mk t _ _ _ _ _ _ _ _ _ => t

def Node.value : Node → String
  | .mk _ v _ _ _ _ _ _ _ _ => v

def Node.lang : Node → String
  | .mk _ _ l _ _ _ _ _ _ _ => l

def Node.ordered : Node → Bool
  | .mk _ _ _ o _ _ _ _ _ _ => o

def Node.identifier : Node → String
  | .mk _ _ _ _ i _ _ _ _ _ => i

def Node.url : Node → String
  | .mk _ _ _ _ _ u _ _ _ _ => u

def Node.title : Node → String
  | .mk _ _ _ _ _ _ t _ _ _ => t

def Node.alt : Node → String
  | .mk _ _ _ _ _ _ _ a _ _ => a

def Node.referenceType : Node → String
  | .mk _ _ _ _ _ _ _ _ r _ => r

def Node.children : Node → List Node
  | .mk _ _ _ _ _ _ _ _ _ cs => cs

/-- Replace the `value` field of a node, keeping every other field.  This is the
only write the printer ever performs on the AST (the in-place trim
in the paragraph case). -/
def Node.setValue : Node → String → Node
  | .mk ty _ lang ordered identifier url title alt referenceType children, v =>
    .mk ty v lang ordered identifier url title alt referenceType children

/-- The `remarkOptions` fields the printer consults.  The module pins a
fixed record (`commonmark: false`, markers `*`, backtick fence,
`fences: true`, ...); we keep the record abstract so the configuration
switches the spec names (`useCommonmarkBreaks`, `useFences`, ...) are
visible in the theorems.  `listItemIndent` and `pedantic` are absent from
the pinned record (hence `undefined` in JavaScript); an absent
`listItemIndent` is modelled by any string other than `"tab"` and an
absent `pedantic` by `false`. -/
structure Opts where
  commonmark : Bool
  emphasis : String
  strong : String
  fence : Char
  fences : Bool
  listItemIndent : String
  pedantic : Bool

/-- The printing context: options plus the injected external capabilities
(`encode`/`escape` from the remark compiler instance, `enclose-uri`,
`enclose-title`, and the delegated remark-stringify visitors used for
heading, html and footnoteReference nodes). -/
structure Ctx where
  opts : Opts
  esc : String → String
  enc : String → String
  uriEnclose : String → String
  titleEnclose : String → String
  extVisit : Node → String

/-- Errors the printer can raise.  `unknownType` is the default-case throw
naming the unhandled node type; `indentedCode` is the pedantic list-item
throw in the code case; `outOfFuel` is an artifact of the fuel-driven
embedding and corresponds to no source behaviour. -/
inductive PrintError where
  | unknownType (ty : String)
  | indentedCode
  | outOfFuel
deriving DecidableEq, Repr

/-- The backtick character, the default fence marker. -/
def backtickChar : Char := Char.ofNat 96

/-- Whitespace per the JavaScript regexp class used by the printer
(`\s` for the split in `textToWords`, `^\s+` for the paragraph trim). -/
def isWs (c : Char) : Bool :=
  c = ' ' || c = '\t' || c = '\n' || c = '\r' || c = Char.ofNat 11 || c = Char.ofNat 12

/-- Core loop of `text.split(/\s+/g)`: `acc` collects the current word in
reverse, `inRun` records that we are inside a whitespace run (so further
whitespace extends the same separator instead of yielding empty words).  A
leading run yields a leading empty word and a trailing run a trailing
empty word, as in JavaScript. -/
def splitWsAux : List Char → List Char → Bool → List String
  | [], acc, inRun => if inRun then [""] else [String.mk acc.reverse]
  | c :: rest, acc, inRun =>
    if isWs c then
      if inRun then splitWsAux rest acc true
      else String.mk acc.reverse :: splitWsAux rest [] true
    else
      if inRun then splitWsAux rest [c] false
      else splitWsAux rest (c :: acc) false

/-- JavaScript `text.split(/\s+/g)`. -/
def splitWs (s : String) : List String := splitWsAux s.data [] false

/-- JavaScript `value.replace(/^\s+/, "")`: drop the leading whitespace
run. -/
def trimLeading (s : String) : String := String.mk (s.data.dropWhile isWs)

/-- Port of the helper `intersperse(sep, itemsIn)` of the printer: a separator
before every item except the first. -/
def intersperse (sep : Doc) : List Doc → List Doc
  | [] => []
  | [x] => [x]
  | x :: xs => x :: sep :: intersperse sep xs

/-- Port of `textToWords(text, shouldEncode, shouldEscape)`: falsy text
yields the empty result; otherwise the text is split on whitespace runs,
each word optionally escaped then encoded, and the words are interleaved
with `line`. -/
def textToWords (ctx : Ctx) (text : String) (shouldEncode shouldEscape : Bool) : List Doc :=
  if text = "" then []
  else
    intersperse Doc.line ((splitWs text).map (fun word =>
      Doc.text (
        let w1 := if shouldEscape then ctx.esc word else word
        if shouldEncode then ctx.enc w1 else w1)))

/-- Port of `printWrappingText`: fill-wrap the word sequence of a text. -/
def printWrappingText (ctx : Ctx) (text : String) (shouldEncode shouldEscape : Bool) : Doc :=
  .fill (textToWords ctx text shouldEncode shouldEscape)

/-- Port of `printLabel`: `shortcut` emits nothing beyond the alt part,
`full` emits the bracketed identifier, anything else empty brackets. -/
def printLabel (ctx : Ctx) (n : Node) : Doc :=
  let value := if n.referenceType = "full" then printWrappingText ctx n.identifier false false
               else Doc.text ""
  if n.referenceType = "shortcut" then value else .concat [.text "[", value, .text "]"]

/-- Port of the `toLowerCase()` calls the printer performs on reference
identifiers: lower-case each character (ASCII case mapping). -/
def jsToLower (s : String) : String := String.mk (s.data.map Char.toLower)

/-- Port of the `longest-streak` package specialised to a single-character
marker: length of the longest run of `m` in the character list, with `cur`
the length of the current run and `best` the best seen so far. -/
def longestStreakAux : List Char → Char → Nat → Nat → Nat
  | [], _, _, best => best
  | c :: rest, m, cur, best =>
    if c = m then longestStreakAux rest m (cur + 1) (max best (cur + 1))
    else longestStreakAux rest m 0 best

/-- Longest run of the marker character in `s` (`streak(value, marker)`). -/
def longestStreak (s : String) (m : Char) : Nat := longestStreakAux s.data m 0 0

/-- Port of the test `FENCE.test(value)` with `FENCE = /([`~])\1{2}/`: the
list contains three consecutive equal characters whose common character is
a backtick or a tilde. -/
def hasFenceRunL : List Char → Bool
  | a :: b :: c :: rest =>
    ((a = b && b = c) && (a = backtickChar || a = '~')) || hasFenceRunL (b :: c :: rest)
  | _ => false

def hasFenceRun (s : String) : Bool := hasFenceRunL s.data

/-- Port of `flattenOnce(docs)`: splice the parts of each direct `concat`
element into the result, one level only. -/
def flattenOnce : List Doc → List Doc
  | [] => []
  | d :: rest =>
    match d with
    | .concat ps => ps ++ flattenOnce rest
    | _ => d :: flattenOnce rest

/-- The module-level constant `hardlinex2 = concat([hardline, hardline])`. -/
def hardlinex2 : Doc := .concat [.hardline, .hardline]

/-- The module-level constant `hardlinex3`. -/
def hardlinex3 : Doc := .concat [.hardline, .hardline, .hardline]

/-- The mutation performed by the paragraph case, as a pure function on the children
sequence: when the first child is a text node its value is trimmed of
leading whitespace, everything else is untouched. -/
def trimFirstTextChild : List Node → List Node
  | [] => []
  | c :: rest =>
    if c.ty = "text" then c.setValue (trimLeading c.value) :: rest else c :: rest

/-- JavaScript truthiness test `parent && parent.type === "listItem"`. -/
def parentIsListItem : Option Node → Bool
  | some p => p.ty = "listItem"
  | none => false

/-- Port of `path.map(print, "children")` with the mutation made explicit:
print each child in order, collecting the child Docs and the post-print
child nodes.  The child printer `pr` is a parameter, as `print` is in the
source. -/
def printChildren (pr : Node → Except PrintError (Doc × Node)) :
    List Node → Except PrintError (List Doc × List Node)
  | [] => .ok ([], [])
  | c :: rest =>
    match pr c with
    | .error e => .error e
    | .ok (d, c') =>
      match printChildren pr rest with
      | .error e => .error e
      | .ok (ds, rest') => .ok (d :: ds, c' :: rest')

/-- Loop body of `printBlock(path, print)`: walk the children keeping the
previously printed sibling (`prev`), pushing between siblings `hardlinex3`
for two lists with equal `ordered` flags, `hardlinex2` for two lists with
different flags, `hardlinex3` for a list followed by a code node without a
language, and `hardlinex2` otherwise, then the Doc of the child.  As in the
source, `prev` is the previous child object, i.e. its post-print state. -/
def printBlockGo (pr : Node → Except PrintError (Doc × Node)) :
    Option Node → List Node → Except PrintError (List Doc × List Node)
  | _, [] => .ok ([], [])
  | prev, c :: rest =>
    let sep : List Doc :=
      match prev with
      | none => []
      | some p =>
        if c.ty = p.ty ∧ p.ty = "list" then
          if p.ordered = c.ordered then [hardlinex3] else [hardlinex2]
        else if p.ty = "list" ∧ c.ty = "code" ∧ c.lang = "" then [hardlinex3]
        else [hardlinex2]
    match pr c with
    | .error e => .error e
    | .ok (d, c') =>
      match printBlockGo pr (some c') rest with
      | .error e => .error e
      | .ok (ds, rest') => .ok (sep ++ d :: ds, c' :: rest')

/-- Port of `printBlock(path, print)`: the joined children wrapped in a
single `concat`. -/
def printBlock (pr : Node → Except PrintError (Doc × Node)) (children : List Node) :
    Except PrintError (Doc × List Node) :=
  match printBlockGo pr none children with
  | .error e => .error e
  | .ok (ds, cs') => .ok (.concat ds, cs')

/-- Port of `printBlockWithLeftMarkers`. -/
def printBlockWithLeftMarkers (pr : Node → Except PrintError (Doc × Node))
    (marker : String) (children : List Node) : Except PrintError (Doc × List Node) :=
  match printBlock pr children with
  | .error e => .error e
  | .ok (bd, cs') => .ok (.markerBlock marker bd, cs')

/-- Port of `printQuoted(path, print, leftQuote, rightQuote)`. -/
def printQuoted (pr : Node → Except PrintError (Doc × Node))
    (leftQuote rightQuote : String) (children : List Node) :
    Except PrintError (Doc × List Node) :=
  match printChildren pr children with
  | .error e => .error e
  | .ok (ds, cs') => .ok (.concat ([Doc.text leftQuote] ++ ds ++ [Doc.text rightQuote]), cs')

/-- The per-node body of `genericPrint`, the AST-to-Doc transformer.  Fuel
drives the recursion; each case follows the source switch on `n.type`.
Two points of note, both faithful to the source rather than to the spec:
the break case calls the unary `concat` builder with a second argument
(`concat("\\", hardline)`), which JavaScript silently discards, so the
commonmark-mode Doc holds only the backslash; and both the footnote and
paragraph cases apply `flattenOnce` twice before wrapping in `fill`. -/
def genericPrintNode (ctx : Ctx) : Nat → Option Node → Node → Except PrintError (Doc × Node)
  | 0, _, _ => .error .outOfFuel
  | fuel + 1, parent, n =>
    match n with
    | .mk ty value lang ordered identifier url title alt referenceType children =>
      if ty = "root" then
        match printBlock (genericPrintNode ctx fuel (some n)) children with
        | .error e => .error e
        | .ok (bd, cs') =>
          .ok (.concat [bd, .hardline],
               .mk ty value lang ordered identifier url title alt referenceType cs')
      else if ty = "blockquote" then
        match printBlockWithLeftMarkers (genericPrintNode ctx fuel (some n)) "> " children with
        | .error e => .error e
        | .ok (bd, cs') =>
          .ok (bd, .mk ty value lang ordered identifier url title alt referenceType cs')
      else if ty = "break" then
        .ok (if ctx.opts.commonmark then .concat [.text "\\"] else .hardline, n)
      else if ty = "code" then
        if ctx.enc lang = "" ∧ ctx.opts.fences = false ∧ value ≠ "" then
          if parentIsListItem parent = true ∧ ctx.opts.listItemIndent ≠ "tab" ∧
              ctx.opts.pedantic = true then
            .error .indentedCode
          else
            .ok (.indent (.text value), n)
        else
          .ok (.concat [
                 .text (String.mk (List.replicate
                   (max (longestStreak value ctx.opts.fence + 1) 3) ctx.opts.fence)),
                 .text (ctx.enc lang), .hardline,
                 (if hasFenceRun value then Doc.indent (.text value) else .text value),
                 .hardline,
                 .text (String.mk (List.replicate
                   (max (longestStreak value ctx.opts.fence + 1) 3) ctx.opts.fence))], n)
      else if ty = "definition" then
        .ok (.group (.indent (.concat
               (if title ≠ "" then
                 [.fill (textToWords ctx ("[" ++ jsToLower identifier ++ "]:") false false ++
                    [Doc.line, .text (ctx.uriEnclose url)]),
                  Doc.line,
                  .fill (textToWords ctx (ctx.titleEnclose title) false false)]
               else
                 [.fill (textToWords ctx ("[" ++ jsToLower identifier ++ "]:") false false ++
                    [Doc.line, .text (ctx.uriEnclose url)])]))), n)
      else if ty = "delete" then
        match printQuoted (genericPrintNode ctx fuel (some n)) "~~" "~~" children with
        | .error e => .error e
        | .ok (d, cs') =>
          .ok (d, .mk ty value lang ordered identifier url title alt referenceType cs')
      else if ty = "footnoteDefinition" then
        match printBlock (genericPrintNode ctx fuel (some n)) children with
        | .error e => .error e
        | .ok (bd, cs') =>
          .ok (.group (.concat [
                 .fill (textToWords ctx ("[^" ++ jsToLower identifier ++ "]:") false false),
                 .ifBreak .softline (.text ""),
                 .indent (.fill [Doc.line, bd])]),
               .mk ty value lang ordered identifier url title alt referenceType cs')
      else if ty = "footnoteReference" then
        .ok (.text (ctx.extVisit n), n)
      else if ty = "footnote" then
        match printChildren (genericPrintNode ctx fuel (some n)) children with
        | .error e => .error e
        | .ok (ds, cs') =>
          .ok (.concat [.text "[^", .fill (flattenOnce (flattenOnce ds)), .text "]"],
               .mk ty value lang ordered identifier url title alt referenceType cs')
      else if ty = "heading" then
        .ok (.text (ctx.extVisit n), n)
      else if ty = "html" then
        .ok (.text (ctx.extVisit n), n)
      else if ty = "imageReference" then
        .ok (.concat [.text "![", printWrappingText ctx alt true false, .text "]",
               printLabel ctx n], n)
      else if ty = "text" then
        .ok (.concat (textToWords ctx value true true), n)
      else if ty = "paragraph" then
        match printChildren
            (genericPrintNode ctx fuel (some (Node.mk ty value lang ordered identifier url
              title alt referenceType (trimFirstTextChild children))))
            (trimFirstTextChild children) with
        | .error e => .error e
        | .ok (ds, cs') =>
          .ok (.fill (flattenOnce (flattenOnce (intersperse Doc.softline ds))),
               .mk ty value lang ordered identifier url title alt referenceType cs')
      else if ty = "emphasis" then
        match printQuoted (genericPrintNode ctx fuel (some n)) ctx.opts.emphasis
            ctx.opts.emphasis children with
        | .error e => .error e
        | .ok (d, cs') =>
          .ok (d, .mk ty value lang ordered identifier url title alt referenceType cs')
      else if ty = "strong" then
        match printQuoted (genericPrintNode ctx fuel (some n))
            (ctx.opts.strong ++ ctx.opts.strong) (ctx.opts.strong ++ ctx.opts.strong)
            children with
        | .error e => .error e
        | .ok (d, cs') =>
          .ok (d, .mk ty value lang ordered identifier url title alt referenceType cs')
      else .error (.unknownType ty)

/-- Entry dispatcher of `genericPrint(path, options, print)`: a missing
node yields the empty string, a string node is returned unchanged, and a
record node is printed by `genericPrintNode`. -/
def genericPrint (ctx : Ctx) (fuel : Nat) (parent : Option Node) :
    Option (String ⊕ Node) → Except PrintError Doc
  | none => .ok (.text "")
  | some (.inl s) => .ok (.text s)
  | some (.inr n) =>
    match genericPrintNode ctx fuel parent n with
    | .error e => .error e
    | .ok (d, _) => .ok d

/-- The node types for which the switch of the transformer has a case. -/
def handledTypes : List String :=
  ["root", "blockquote", "break", "code", "definition", "delete",
   "footnoteDefinition", "footnoteReference", "footnote", "heading", "html",
   "imageReference", "text", "paragraph", "emphasis", "strong"]

mutual
/-- The net effect of printing on the AST, as a pure map: every case whose
printing recurses into the children (root, blockquote, footnoteDefinition,
footnote, delete, emphasis, strong, paragraph) carries the effect through
them, the paragraph case additionally trims the leading whitespace of a
first text child, and no other case touches anything. -/
def astTransform : Node → Node
  | .mk ty value lang ordered identifier url title alt referenceType children =>
    if ty = "paragraph" then
      .mk ty value lang ordered identifier url title alt referenceType
        (trimFirstTextChild (astTransformList children))
    else if ty = "root" ∨ ty = "blockquote" ∨ ty = "footnoteDefinition" ∨
        ty = "footnote" ∨ ty = "delete" ∨ ty = "emphasis" ∨ ty = "strong" then
      .mk ty value lang ordered identifier url title alt referenceType
        (astTransformList children)
    else
      .mk ty value lang ordered identifier url title alt referenceType children

def astTransformList : List Node → List Node
  | [] => []
  | c :: cs => astTransform c :: astTransformList cs
end

/-- The block-join separator exactly as the specification states it: two
hard lines by default, three between two lists with equal `ordered` flags,
three between a list and a language-less code block, two between two lists
with different `ordered` flags. -/
def claimSep (prev child : Node) : Doc :=
  if prev.ty = "list" ∧ child.ty = "list" then
    if prev.ordered = child.ordered then hardlinex3 else hardlinex2
  else if prev.ty = "list" ∧ child.ty = "code" ∧ child.lang = "" then hardlinex3
  else hardlinex2

/-- The specification's block-join rule over a sequence of printed
children (each paired with the original sibling node): the child Docs in
order with `claimSep` of each adjacent sibling pair between them;
`prev` carries the sibling preceding the sequence, if any. -/
def joinClaimFrom (prev : Option Node) : List (Doc × Node) → List Doc
  | [] => []
  | (d, c) :: rest =>
    (match prev with
     | none => []
     | some p => [claimSep p c]) ++ d :: joinClaimFrom (some c) rest

/-- Splicing two levels of direct `concat` nesting: each direct `concat`
element is replaced by its parts with one further level of direct `concat`
parts spliced; nesting deeper than two levels is preserved. -/
def spliceTwo : List Doc → List Doc
  | [] => []
  | d :: rest =>
    (match d with
     | .concat ps => flattenOnce ps
     | _ => [d]) ++ spliceTwo rest

/-- Identity string transform, standing in for the injected escape/encode
and enclose capabilities in concrete evaluations. -/
def idStr : String → String := fun s => s

/-- The pinned `remarkOptions` record of the module (commonmark off, `*`
markers, backtick fence, fences on, `listItemIndent`/`pedantic` absent). -/
def opts0 : Opts :=
  { commonmark := false, emphasis := "*", strong := "*", fence := backtickChar,
    fences := true, listItemIndent := "", pedantic := false }

/-- Concrete context with the pinned options and identity capabilities. -/
def ctx0 : Ctx :=
  { opts := opts0, esc := idStr, enc := idStr, uriEnclose := idStr,
    titleEnclose := idStr, extVisit := fun _ => "" }

/-- Context in commonmark mode (the legacy break configuration). -/
def ctxCM : Ctx :=
  { opts := { opts0 with commonmark := true }, esc := idStr, enc := idStr,
    uriEnclose := idStr, titleEnclose := idStr, extVisit := fun _ => "" }

/-- Context with fencing disabled and pedantic mode on (the strict legacy
configuration of the indented-code contract). -/
def ctxPed : Ctx :=
  { opts := { opts0 with fences := false, pedantic := true }, esc := idStr,
    enc := idStr, uriEnclose := idStr, titleEnclose := idStr,
    extVisit := fun _ => "" }

/-- Text node constructor for concrete inputs. -/
def textNode (v : String) : Node := .mk "text" v "" false "" "" "" "" "" []

/-- Footnote definition with identifier `x` and no children. -/
def fnDef0 : Node := .mk "footnoteDefinition" "" "" false "x" "" "" "" "" []

/-- Emphasis node containing the text `a b`. -/
def emphNode0 : Node := .mk "emphasis" "" "" false "" "" "" "" "" [textNode "a b"]

/-- Footnote node containing `emphNode0`. -/
def fn0 : Node := .mk "footnote" "" "" false "" "" "" "" "" [emphNode0]

/-- The Doc the printer produces for `emphNode0`: a `concat` that itself
contains a nested `concat` (the word sequence of the text child). -/
def emphDoc0 : Doc :=
  .concat [.text "*", .concat [.text "a", Doc.line, .text "b"], .text "*"]

/-- A stub child printer for exercising the block-join rule in isolation:
prints each node as its type tag and leaves the node unchanged. -/
def prStub : Node → Except PrintError (Doc × Node) := fun c => .ok (.text c.ty, c)

/-- An ordered list node. -/
def listOrdered : Node := .mk "list" "" "" true "" "" "" "" "" []

/-- An unordered list node. -/
def listUnordered : Node := .mk "list" "" "" false "" "" "" "" "" []

/-- A code node with no language tag. -/
def codeNoLang : Node := .mk "code" "x" "" false "" "" "" "" "" []

/-- Sibling sequence exercising every branch of the block-join rule. -/
def blockKids : List Node :=
  [listOrdered, listOrdered, listUnordered, codeNoLang, textNode "t"]

/-- Code node whose value is a run of four backticks. -/
def code4bt : Node := .mk "code" "````" "js" false "" "" "" "" "" []

/-- Code node whose value is a run of exactly three backticks. -/
def code3bt : Node := .mk "code" "```" "js" false "" "" "" "" "" []

/-- Code node whose value is a tilde run, under the backtick fence. -/
def codeTilde : Node := .mk "code" "~~~" "js" false "" "" "" "" "" []

/-- A break node. -/
def break0 : Node := .mk "break" "" "" false "" "" "" "" "" []

/-- A listItem node (used as a parent). -/
def listItem0 : Node := .mk "listItem" "" "" false "" "" "" "" "" []

/-- A list node, whose type the transformer does not handle. -/
def listNode0 : Node := .mk "list" "" "" false "" "" "" "" "" []

/-- Paragraph whose first text child has leading whitespace. -/
def para0 : Node := .mk "paragraph" "" "" false "" "" "" "" "" [textNode " a b"]

/-- The same paragraph after the printing pass trimmed the first child. -/
def para0After : Node := .mk "paragraph" "" "" false "" "" "" "" "" [textNode "a b"]

theorem astTransform_fields (n : Node) :
    (astTransform n).ty = n.ty ∧ (astTransform n).value = n.value ∧
    (astTransform n).lang = n.lang ∧ (astTransform n).ordered = n.ordered ∧
    (astTransform n).identifier = n.identifier ∧ (astTransform n).url = n.url ∧
    (astTransform n).title = n.title ∧ (astTransform n).alt = n.alt ∧
    (astTransform n).referenceType = n.referenceType := by
  obtain ⟨ty, v, lg, o, i, u, t, a, r, cs⟩ := n
  simp only [astTransform]
  split
  · simp [Node.ty, Node.value, Node.lang, Node.ordered, Node.identifier, Node.url,
      Node.title, Node.alt, Node.referenceType]
  · split <;>
      simp [Node.ty, Node.value, Node.lang, Node.ordered, Node.identifier, Node.url,
        Node.title, Node.alt, Node.referenceType]

theorem astTransform_ty (n : Node) : (astTransform n).ty = n.ty :=
  (astTransform_fields n).1

theorem astTransformList_trim (cs : List Node) :
    astTransformList (trimFirstTextChild cs) = trimFirstTextChild (astTransformList cs) := by
  cases cs with
  | nil => rfl
  | cons c rest =>
    obtain ⟨ty, v, lg, o, i, u, t, a, r, ccs⟩ := c
    by_cases hty : ty = "text"
    · subst hty
      simp [trimFirstTextChild, astTransformList, astTransform, Node.ty, Node.setValue,
        Node.value]
    · have h2 : (astTransform (Node.mk ty v lg o i u t a r ccs)).ty = ty :=
        astTransform_ty _
      rw [show trimFirstTextChild (Node.mk ty v lg o i u t a r ccs :: rest) =
          Node.mk ty v lg o i u t a r ccs :: rest from by
        simp [trimFirstTextChild, Node.ty, hty]]
      simp only [astTransformList]
      rw [show trimFirstTextChild (astTransform (Node.mk ty v lg o i u t a r ccs) ::
            astTransformList rest) =
          astTransform (Node.mk ty v lg o i u t a r ccs) :: astTransformList rest from by
        simp [trimFirstTextChild, h2, hty]]

theorem printChildren_sim {pr : Node → Except PrintError (Doc × Node)}
    (hpr : ∀ c d c', pr c = .ok (d, c') → c' = astTransform c) :
    ∀ cs ds cs', printChildren pr cs = .ok (ds, cs') → cs' = astTransformList cs := by
  intro cs
  induction cs with
  | nil =>
    intro ds cs' h
    simp only [printChildren, Except.ok.injEq, Prod.mk.injEq] at h
    simp [astTransformList, ← h.2]
  | cons c rest ih =>
    intro ds cs' h
    simp only [printChildren] at h
    split at h
    · exact absurd h (by simp)
    · rename_i d c' heq
      split at h
      · exact absurd h (by simp)
      · rename_i ds2 rest2 heq2
        simp only [Except.ok.injEq, Prod.mk.injEq] at h
        simp [astTransformList, ← h.2, hpr c d c' heq, ih ds2 rest2 heq2]

theorem printBlockGo_sim {pr : Node → Except PrintError (Doc × Node)}
    (hpr : ∀ c d c', pr c = .ok (d, c') → c' = astTransform c) :
    ∀ cs prev ds cs', printBlockGo pr prev cs = .ok (ds, cs') → cs' = astTransformList cs := by
  intro cs
  induction cs with
  | nil =>
    intro prev ds cs' h
    simp only [printBlockGo, Except.ok.injEq, Prod.mk.injEq] at h
    simp [astTransformList, ← h.2]
  | cons c rest ih =>
    intro prev ds cs' h
    simp only [printBlockGo] at h
    split at h
    · exact absurd h (by simp)
    · rename_i d c' heq
      split at h
      · exact absurd h (by simp)
      · rename_i ds2 rest2 heq2
        simp only [Except.ok.injEq, Prod.mk.injEq] at h
        simp [astTransformList, ← h.2, hpr c d c' heq, ih (some c') ds2 rest2 heq2]

theorem printBlock_sim {pr : Node → Except PrintError (Doc × Node)}
    (hpr : ∀ c d c', pr c = .ok (d, c') → c' = astTransform c) :
    ∀ cs bd cs', printBlock pr cs = .ok (bd, cs') → cs' = astTransformList cs := by
  intro cs bd cs' h
  simp only [printBlock] at h
  split at h
  · exact absurd h (by simp)
  · rename_i ds2 rest2 heq2
    simp only [Except.ok.injEq, Prod.mk.injEq] at h
    rw [← h.2]
    exact printBlockGo_sim hpr cs none ds2 rest2 heq2

theorem printBlockWithLeftMarkers_sim {pr : Node → Except PrintError (Doc × Node)}
    (hpr : ∀ c d c', pr c = .ok (d, c') → c' = astTransform c) :
    ∀ m cs bd cs', printBlockWithLeftMarkers pr m cs = .ok (bd, cs') →
      cs' = astTransformList cs := by
  intro m cs bd cs' h
  simp only [printBlockWithLeftMarkers] at h
  split at h
  · exact absurd h (by simp)
  · rename_i bd2 cs2 heq2
    simp only [Except.ok.injEq, Prod.mk.injEq] at h
    rw [← h.2]
    exact printBlock_sim hpr cs bd2 cs2 heq2

theorem printQuoted_sim {pr : Node → Except PrintError (Doc × Node)}
    (hpr : ∀ c d c', pr c = .ok (d, c') → c' = astTransform c) :
    ∀ lq rq cs d cs', printQuoted pr lq rq cs = .ok (d, cs') → cs' = astTransformList cs := by
  intro lq rq cs d cs' h
  simp only [printQuoted] at h
  split at h
  · exact absurd h (by simp)
  · rename_i ds2 cs2 heq2
    simp only [Except.ok.injEq, Prod.mk.injEq] at h
    rw [← h.2]
    exact printChildren_sim hpr cs ds2 cs2 heq2

theorem genericPrintNode_sim :
    ∀ fuel ctx parent n d n',
      genericPrintNode ctx fuel parent n = .ok (d, n') → n' = astTransform n := by
  intro fuel
  induction fuel with
  | zero =>
    intro ctx parent n d n' h
    simp [genericPrintNode] at h
  | succ fuel ih =>
    intro ctx parent n d n' h
    obtain ⟨ty, value, lang, ordered, identifier, url, title, alt, referenceType, children⟩ := n
    have hpr : ∀ par c dd cc, genericPrintNode ctx fuel par c = .ok (dd, cc) →
        cc = astTransform c := fun par c dd cc hcc => ih ctx par c dd cc hcc
    by_cases h1 : ty = "root"
    · subst h1
      simp only [genericPrintNode, String.reduceEq, reduceIte] at h
      split at h
      · exact absurd h (by simp)
      · rename_i bd cs' heq
        simp only [Except.ok.injEq, Prod.mk.injEq] at h
        rw [← h.2]
        simp [astTransform, printBlock_sim (fun c dd cc => hpr _ c dd cc) children bd cs' heq]
    · by_cases h2 : ty = "blockquote"
      · subst h2
        simp only [genericPrintNode, String.reduceEq, reduceIte] at h
        split at h
        · exact absurd h (by simp)
        · rename_i bd cs' heq
          simp only [Except.ok.injEq, Prod.mk.injEq] at h
          rw [← h.2]
          simp [astTransform,
            printBlockWithLeftMarkers_sim (fun c dd cc => hpr _ c dd cc) _ children bd cs' heq]
      · by_cases h3 : ty = "break"
        · subst h3
          simp only [genericPrintNode, String.reduceEq, reduceIte, Except.ok.injEq, Prod.mk.injEq] at h
          rw [← h.2]
          simp [astTransform]
        · by_cases h4 : ty = "code"
          · subst h4
            simp only [genericPrintNode, String.reduceEq, reduceIte] at h
            split at h
            · split at h
              · exact absurd h (by simp)
              · simp only [Except.ok.injEq, Prod.mk.injEq] at h
                rw [← h.2]
                simp [astTransform]
            · simp only [Except.ok.injEq, Prod.mk.injEq] at h
              rw [← h.2]
              simp [astTransform]
          · by_cases h5 : ty = "definition"
            · subst h5
              simp only [genericPrintNode, String.reduceEq, reduceIte, Except.ok.injEq, Prod.mk.injEq] at h
              rw [← h.2]
              simp [astTransform]
            · by_cases h6 : ty = "delete"
              · subst h6
                simp only [genericPrintNode, String.reduceEq, reduceIte] at h
                split at h
                · exact absurd h (by simp)
                · rename_i dd cs' heq
                  simp only [Except.ok.injEq, Prod.mk.injEq] at h
                  rw [← h.2]
                  simp [astTransform,
                    printQuoted_sim (fun c dd cc => hpr _ c dd cc) _ _ children dd cs' heq]
              · by_cases h7 : ty = "footnoteDefinition"
                · subst h7
                  simp only [genericPrintNode, String.reduceEq, reduceIte] at h
                  split at h
                  · exact absurd h (by simp)
                  · rename_i bd cs' heq
                    simp only [Except.ok.injEq, Prod.mk.injEq] at h
                    rw [← h.2]
                    simp [astTransform,
                      printBlock_sim (fun c dd cc => hpr _ c dd cc) children bd cs' heq]
                · by_cases h8 : ty = "footnoteReference"
                  · subst h8
                    simp only [genericPrintNode, String.reduceEq, reduceIte, Except.ok.injEq,
                      Prod.mk.injEq] at h
                    rw [← h.2]
                    simp [astTransform]
                  · by_cases h9 : ty = "footnote"
                    · subst h9
                      simp only [genericPrintNode, String.reduceEq, reduceIte] at h
                      split at h
                      · exact absurd h (by simp)
                      · rename_i ds cs' heq
                        simp only [Except.ok.injEq, Prod.mk.injEq] at h
                        rw [← h.2]
                        simp [astTransform,
                          printChildren_sim (fun c dd cc => hpr _ c dd cc) children ds cs' heq]
                    · by_cases h10 : ty = "heading"
                      · subst h10
                        simp only [genericPrintNode, String.reduceEq, reduceIte, Except.ok.injEq,
                          Prod.mk.injEq] at h
                        rw [← h.2]
                        simp [astTransform]
                      · by_cases h11 : ty = "html"
                        · subst h11
                          simp only [genericPrintNode, String.reduceEq, reduceIte, Except.ok.injEq,
                            Prod.mk.injEq] at h
                          rw [← h.2]
                          simp [astTransform]
                        · by_cases h12 : ty = "imageReference"
                          · subst h12
                            simp only [genericPrintNode, String.reduceEq, reduceIte, Except.ok.injEq,
                              Prod.mk.injEq] at h
                            rw [← h.2]
                            simp [astTransform]
                          · by_cases h13 : ty = "text"
                            · subst h13
                              simp only [genericPrintNode, String.reduceEq, reduceIte, Except.ok.injEq,
                                Prod.mk.injEq] at h
                              rw [← h.2]
                              simp [astTransform]
                            · by_cases h14 : ty = "paragraph"
                              · subst h14
                                simp only [genericPrintNode, String.reduceEq, reduceIte] at h
                                split at h
                                · exact absurd h (by simp)
                                · rename_i ds cs' heq
                                  simp only [Except.ok.injEq, Prod.mk.injEq] at h
                                  rw [← h.2]
                                  have hcs := printChildren_sim
                                    (fun c dd cc => hpr _ c dd cc)
                                    (trimFirstTextChild children) ds cs' heq
                                  rw [astTransformList_trim children] at hcs
                                  simp [astTransform, hcs]
                              · by_cases h15 : ty = "emphasis"
                                · subst h15
                                  simp only [genericPrintNode, String.reduceEq, reduceIte] at h
                                  split at h
                                  · exact absurd h (by simp)
                                  · rename_i dd cs' heq
                                    simp only [Except.ok.injEq, Prod.mk.injEq] at h
                                    rw [← h.2]
                                    simp [astTransform,
                                      printQuoted_sim (fun c dd cc => hpr _ c dd cc)
                                        _ _ children dd cs' heq]
                                · by_cases h16 : ty = "strong"
                                  · subst h16
                                    simp only [genericPrintNode, String.reduceEq, reduceIte] at h
                                    split at h
                                    · exact absurd h (by simp)
                                    · rename_i dd cs' heq
                                      simp only [Except.ok.injEq, Prod.mk.injEq] at h
                                      rw [← h.2]
                                      simp [astTransform,
                                        printQuoted_sim (fun c dd cc => hpr _ c dd cc)
                                          _ _ children dd cs' heq]
                                  · simp [genericPrintNode, h1, h2, h3, h4, h5, h6, h7, h8,
                                      h9, h10, h11, h12, h13, h14, h15, h16] at h

theorem printChildren_errU {pr : Node → Except PrintError (Doc × Node)}
    (hpr : ∀ c t, pr c = .error (.unknownType t) → t ∉ handledTypes) :
    ∀ cs t, printChildren pr cs = .error (.unknownType t) → t ∉ handledTypes := by
  intro cs
  induction cs with
  | nil => intro t h; simp [printChildren] at h
  | cons c rest ih =>
    intro t h
    simp only [printChildren] at h
    split at h
    · rename_i e heq
      simp only [Except.error.injEq] at h
      subst h
      exact hpr c t heq
    · rename_i d c' heq
      split at h
      · rename_i e heq2
        simp only [Except.error.injEq] at h
        subst h
        exact ih t heq2
      · simp at h

theorem printBlockGo_errU {pr : Node → Except PrintError (Doc × Node)}
    (hpr : ∀ c t, pr c = .error (.unknownType t) → t ∉ handledTypes) :
    ∀ cs prev t, printBlockGo pr prev cs = .error (.unknownType t) → t ∉ handledTypes := by
  intro cs
  induction cs with
  | nil => intro prev t h; simp [printBlockGo] at h
  | cons c rest ih =>
    intro prev t h
    simp only [printBlockGo] at h
    split at h
    · rename_i e heq
      simp only [Except.error.injEq] at h
      subst h
      exact hpr c t heq
    · rename_i d c' heq
      split at h
      · rename_i e heq2
        simp only [Except.error.injEq] at h
        subst h
        exact ih (some c') t heq2
      · simp at h

theorem printBlock_errU {pr : Node → Except PrintError (Doc × Node)}
    (hpr : ∀ c t, pr c = .error (.unknownType t) → t ∉ handledTypes) :
    ∀ cs t, printBlock pr cs = .error (.unknownType t) → t ∉ handledTypes := by
  intro cs t h
  simp only [printBlock] at h
  split at h
  · rename_i e heq
    simp only [Except.error.injEq] at h
    subst h
    exact printBlockGo_errU hpr cs none t heq
  · simp at h

theorem printBlockWithLeftMarkers_errU {pr : Node → Except PrintError (Doc × Node)}
    (hpr : ∀ c t, pr c = .error (.unknownType t) → t ∉ handledTypes) :
    ∀ m cs t, printBlockWithLeftMarkers pr m cs = .error (.unknownType t) →
      t ∉ handledTypes := by
  intro m cs t h
  simp only [printBlockWithLeftMarkers] at h
  split at h
  · rename_i e heq
    simp only [Except.error.injEq] at h
    subst h
    exact printBlock_errU hpr cs t heq
  · simp at h

theorem printQuoted_errU {pr : Node → Except PrintError (Doc × Node)}
    (hpr : ∀ c t, pr c = .error (.unknownType t) → t ∉ handledTypes) :
    ∀ lq rq cs t, printQuoted pr lq rq cs = .error (.unknownType t) → t ∉ handledTypes := by
  intro lq rq cs t h
  simp only [printQuoted] at h
  split at h
  · rename_i e heq
    simp only [Except.error.injEq] at h
    subst h
    exact printChildren_errU hpr cs t heq
  · simp at h

theorem genericPrintNode_errU :
    ∀ fuel ctx parent n t,
      genericPrintNode ctx fuel parent n = .error (.unknownType t) → t ∉ handledTypes := by
  intro fuel
  induction fuel with
  | zero =>
    intro ctx parent n t h
    simp [genericPrintNode] at h
  | succ fuel ih =>
    intro ctx parent n t h
    obtain ⟨ty, value, lang, ordered, identifier, url, title, alt, referenceType, children⟩ := n
    have hpr : ∀ par c tt, genericPrintNode ctx fuel par c = .error (.unknownType tt) →
        tt ∉ handledTypes := fun par c tt hcc => ih ctx par c tt hcc
    by_cases h1 : ty = "root"
    · subst h1
      simp only [genericPrintNode, String.reduceEq, reduceIte] at h
      split at h
      · rename_i e heq
        simp only [Except.error.injEq] at h
        subst h
        exact printBlock_errU (fun c tt => hpr _ c tt) children t heq
      · simp at h
    · by_cases h2 : ty = "blockquote"
      · subst h2
        simp only [genericPrintNode, String.reduceEq, reduceIte] at h
        split at h
        · rename_i e heq
          simp only [Except.error.injEq] at h
          subst h
          exact printBlockWithLeftMarkers_errU (fun c tt => hpr _ c tt) _ children t heq
        · simp at h
      · by_cases h3 : ty = "break"
        · subst h3
          simp only [genericPrintNode, String.reduceEq, reduceIte] at h
          simp at h
        · by_cases h4 : ty = "code"
          · subst h4
            simp only [genericPrintNode, String.reduceEq, reduceIte] at h
            split at h
            · split at h
              · simp at h
              · simp at h
            · simp at h
          · by_cases h5 : ty = "definition"
            · subst h5
              simp only [genericPrintNode, String.reduceEq, reduceIte] at h
              simp at h
            · by_cases h6 : ty = "delete"
              · subst h6
                simp only [genericPrintNode, String.reduceEq, reduceIte] at h
                split at h
                · rename_i e heq
                  simp only [Except.error.injEq] at h
                  subst h
                  exact printQuoted_errU (fun c tt => hpr _ c tt) _ _ children t heq
                · simp at h
              · by_cases h7 : ty = "footnoteDefinition"
                · subst h7
                  simp only [genericPrintNode, String.reduceEq, reduceIte] at h
                  split at h
                  · rename_i e heq
                    simp only [Except.error.injEq] at h
                    subst h
                    exact printBlock_errU (fun c tt => hpr _ c tt) children t heq
                  · simp at h
                · by_cases h8 : ty = "footnoteReference"
                  · subst h8
                    simp only [genericPrintNode, String.reduceEq, reduceIte] at h
                    simp at h
                  · by_cases h9 : ty = "footnote"
                    · subst h9
                      simp only [genericPrintNode, String.reduceEq, reduceIte] at h
                      split at h
                      · rename_i e heq
                        simp only [Except.error.injEq] at h
                        subst h
                        exact printChildren_errU (fun c tt => hpr _ c tt) children t heq
                      · simp at h
                    · by_cases h10 : ty = "heading"
                      · subst h10
                        simp only [genericPrintNode, String.reduceEq, reduceIte] at h
                        simp at h
                      · by_cases h11 : ty = "html"
                        · subst h11
                          simp only [genericPrintNode, String.reduceEq, reduceIte] at h
                          simp at h
                        · by_cases h12 : ty = "imageReference"
                          · subst h12
                            simp only [genericPrintNode, String.reduceEq, reduceIte] at h
                            simp at h
                          · by_cases h13 : ty = "text"
                            · subst h13
                              simp only [genericPrintNode, String.reduceEq, reduceIte] at h
                              simp at h
                            · by_cases h14 : ty = "paragraph"
                              · subst h14
                                simp only [genericPrintNode, String.reduceEq, reduceIte] at h
                                split at h
                                · rename_i e heq
                                  simp only [Except.error.injEq] at h
                                  subst h
                                  exact printChildren_errU (fun c tt => hpr _ c tt)
                                    (trimFirstTextChild children) t heq
                                · simp at h
                              · by_cases h15 : ty = "emphasis"
                                · subst h15
                                  simp only [genericPrintNode, String.reduceEq, reduceIte] at h
                                  split at h
                                  · rename_i e heq
                                    simp only [Except.error.injEq] at h
                                    subst h
                                    exact printQuoted_errU (fun c tt => hpr _ c tt)
                                      _ _ children t heq
                                  · simp at h
                                · by_cases h16 : ty = "strong"
                                  · subst h16
                                    simp only [genericPrintNode, String.reduceEq,
                                      reduceIte] at h
                                    split at h
                                    · rename_i e heq
                                      simp only [Except.error.injEq] at h
                                      subst h
                                      exact printQuoted_errU (fun c tt => hpr _ c tt)
                                        _ _ children t heq
                                    · simp at h
                                  · simp only [genericPrintNode, String.reduceEq, reduceIte,
                                      h1, h2, h3, h4, h5, h6, h7, h8, h9, h10, h11, h12,
                                      h13, h14, h15, h16, if_false, Except.error.injEq,
                                      PrintError.unknownType.injEq] at h
                                    rw [← h]
                                    simp [handledTypes, h1, h2, h3, h4, h5, h6, h7, h8, h9,
                                      h10, h11, h12, h13, h14, h15, h16]

theorem splitWsAux_ne_nil : ∀ cs acc b, splitWsAux cs acc b ≠ [] := by
  intro cs
  induction cs with
  | nil =>
    intro acc b
    simp only [splitWsAux]
    split <;> simp
  | cons c rest ih =>
    intro acc b
    simp only [splitWsAux]
    split
    · split
      · exact ih acc true
      · simp
    · split
      · exact ih [c] false
      · exact ih (c :: acc) false

theorem splitWs_ne_nil (s : String) : splitWs s ≠ [] := splitWsAux_ne_nil s.data [] false

theorem intersperse_line_spec :
    ∀ ds : List Doc, ds ≠ [] → (∀ d ∈ ds, ∃ s, d = Doc.text s) →
      (intersperse Doc.line ds).length % 2 = 1 ∧
      ∀ i (h : i < (intersperse Doc.line ds).length),
        (i % 2 = 1 → (intersperse Doc.line ds).get ⟨i, h⟩ = Doc.line) ∧
        (i % 2 = 0 → ∃ s, (intersperse Doc.line ds).get ⟨i, h⟩ = Doc.text s) := by
  intro ds
  induction ds with
  | nil => intro h; exact absurd rfl h
  | cons x xs ih =>
    intro _ htext
    cases xs with
    | nil =>
      refine ⟨rfl, ?_⟩
      intro i h
      simp only [intersperse, List.length_cons, List.length_nil] at h
      have hi : i = 0 := by omega
      subst hi
      exact ⟨fun hodd => absurd hodd (by omega), fun _ => htext x (by simp)⟩
    | cons y ys =>
      have ihy := ih (by simp) (fun d hd => htext d (by simp [hd]))
      refine ⟨?_, ?_⟩
      · simp only [intersperse, List.length_cons]
        omega
      · intro i h
        match i with
        | 0 =>
          exact ⟨fun hodd => by omega, fun _ => htext x (by simp)⟩
        | 1 =>
          refine ⟨fun _ => ?_, fun heven => by omega⟩
          simp [intersperse]
        | (j + 2) =>
          simp only [intersperse, List.length_cons] at h
          have hj : j < (intersperse Doc.line (y :: ys)).length := by omega
          have := ihy.2 j hj
          refine ⟨fun hodd => ?_, fun heven => ?_⟩
          · have : j % 2 = 1 → (intersperse Doc.line (y :: ys)).get ⟨j, hj⟩ = Doc.line :=
              (ihy.2 j hj).1
            have hres := this (by omega)
            simpa [intersperse] using hres
          · have : j % 2 = 0 → ∃ s, (intersperse Doc.line (y :: ys)).get ⟨j, hj⟩ = Doc.text s :=
              (ihy.2 j hj).2
            have hres := this (by omega)
            simpa [intersperse] using hres

theorem textToWords_spec (ctx : Ctx) (t : String) (se sesc : Bool) (ht : t ≠ "") :
    fillOk (textToWords ctx t se sesc) ∧
    ∀ i (h : i < (textToWords ctx t se sesc).length),
      (i % 2 = 1 → (textToWords ctx t se sesc).get ⟨i, h⟩ = Doc.line) ∧
      (i % 2 = 0 → ∃ s, (textToWords ctx t se sesc).get ⟨i, h⟩ = Doc.text s) := by
  have hne : (splitWs t).map (fun word =>
      Doc.text (
        let w1 := if sesc = true then ctx.esc word else word
        if se = true then ctx.enc w1 else w1)) ≠ [] := by
    simp [splitWs_ne_nil t]
  have htext : ∀ d ∈ (splitWs t).map (fun word =>
      Doc.text (
        let w1 := if sesc = true then ctx.esc word else word
        if se = true then ctx.enc w1 else w1)), ∃ s, d = Doc.text s := by
    intro d hd
    simp only [List.mem_map] at hd
    obtain ⟨w, _, hw⟩ := hd
    exact ⟨_, hw.symm⟩
  have := intersperse_line_spec _ hne htext
  constructor
  · show (textToWords ctx t se sesc).length % 2 = 1
    simp only [textToWords, if_neg ht]
    exact this.1
  · intro i h
    have h2 : i < (intersperse Doc.line ((splitWs t).map (fun word =>
        Doc.text (
          let w1 := if sesc = true then ctx.esc word else word
          if se = true then ctx.enc w1 else w1)))).length := by
      simpa [textToWords, if_neg ht] using h
    have hres := this.2 i h2
    constructor
    · intro hodd
      have := hres.1 hodd
      simpa [textToWords, if_neg ht] using this
    · intro heven
      have := hres.2 heven
      simpa [textToWords, if_neg ht] using this

theorem flattenOnce_append :
    ∀ a b : List Doc, flattenOnce (a ++ b) = flattenOnce a ++ flattenOnce b := by
  intro a
  induction a with
  | nil => intro b; rfl
  | cons d rest ih =>
    intro b
    cases d <;> simp [flattenOnce, ih]

theorem flattenOnce_flattenOnce :
    ∀ ds : List Doc, flattenOnce (flattenOnce ds) = spliceTwo ds := by
  intro ds
  induction ds with
  | nil => rfl
  | cons d rest ih =>
    cases d <;> simp [flattenOnce, spliceTwo, flattenOnce_append, ih]

theorem claimSep_congr {a b : Node} (h1 : a.ty = b.ty) (h2 : a.ordered = b.ordered)
    (x : Node) : claimSep a x = claimSep b x := by
  simp [claimSep, h1, h2]

theorem joinClaimFrom_congr {a b : Node} (h1 : a.ty = b.ty) (h2 : a.ordered = b.ordered)
    (ps : List (Doc × Node)) : joinClaimFrom (some a) ps = joinClaimFrom (some b) ps := by
  cases ps with
  | nil => rfl
  | cons p rest =>
    obtain ⟨d, c⟩ := p
    simp [joinClaimFrom, claimSep_congr h1 h2 c]

theorem blockSep_eq_claimSep (p c : Node) :
    (if c.ty = p.ty ∧ p.ty = "list" then
      if p.ordered = c.ordered then [hardlinex3] else [hardlinex2]
     else if p.ty = "list" ∧ c.ty = "code" ∧ c.lang = "" then [hardlinex3]
     else [hardlinex2]) = [claimSep p c] := by
  by_cases hpl : p.ty = "list"
  · by_cases hcl : c.ty = "list"
    · simp only [claimSep, hpl, hcl, and_self, reduceIte, if_true]
      split <;> simp
    · by_cases hcc : c.ty = "code" ∧ c.lang = ""
      · simp [claimSep, hpl, hcl, hcc.1, hcc.2]
      · have : ¬(c.ty = "code" ∧ c.lang = "") := hcc
        by_cases hco : c.ty = "code"
        · have hlang : ¬c.lang = "" := fun hl => hcc ⟨hco, hl⟩
          simp [claimSep, hpl, hcl, hco, hlang]
        · simp [claimSep, hpl, hcl, hco]
  · have hne : ¬(c.ty = p.ty ∧ p.ty = "list") := fun hx => hpl hx.2
    simp [claimSep, hpl, hne]

theorem printBlockGo_join {pr : Node → Except PrintError (Doc × Node)}
    (hpr : ∀ c d c', pr c = .ok (d, c') →
      c'.ty = c.ty ∧ c'.ordered = c.ordered ∧ c'.lang = c.lang) :
    ∀ cs prev ds cs', printBlockGo pr prev cs = .ok (ds, cs') →
      ∃ pairs : List (Doc × Node), pairs.map Prod.snd = cs ∧
        (∀ p ∈ pairs, ∃ c', pr p.2 = .ok (p.1, c')) ∧
        ds = joinClaimFrom prev pairs := by
  intro cs
  induction cs with
  | nil =>
    intro prev ds cs' h
    simp only [printBlockGo, Except.ok.injEq, Prod.mk.injEq] at h
    exact ⟨[], by simp, by simp, by simp [joinClaimFrom, ← h.1]⟩
  | cons c rest ih =>
    intro prev ds cs' h
    simp only [printBlockGo] at h
    split at h
    · exact absurd h (by simp)
    · rename_i d c' heq
      split at h
      · exact absurd h (by simp)
      · rename_i ds2 rest2 heq2
        simp only [Except.ok.injEq, Prod.mk.injEq] at h
        obtain ⟨pairs2, hmap, hok, hjoin⟩ := ih (some c') ds2 rest2 heq2
        refine ⟨(d, c) :: pairs2, by simp [hmap], ?_, ?_⟩
        · intro p hp
          simp only [List.mem_cons] at hp
          rcases hp with rfl | hp
          · exact ⟨c', heq⟩
          · exact hok p hp
        · rw [← h.1]
          obtain ⟨hty, hord, hlang⟩ := hpr c d c' heq
          rw [hjoin, joinClaimFrom_congr hty hord pairs2]
          cases prev with
          | none => simp [joinClaimFrom]
          | some p =>
            simp only [joinClaimFrom]
            rw [← blockSep_eq_claimSep p c]

theorem hasFenceRunL_iff : ∀ l : List Char,
    hasFenceRunL l = true ↔
      ∃ pre c post, l = pre ++ c :: c :: c :: post ∧ (c = backtickChar ∨ c = '~') := by
  intro l
  induction l with
  | nil =>
    simp only [hasFenceRunL, Bool.false_eq_true, false_iff]
    rintro ⟨pre, c, post, h, -⟩
    have := congrArg List.length h
    simp only [List.length_cons, List.length_nil, List.length_append] at this
    omega
  | cons a l ih =>
    cases l with
    | nil =>
      simp only [hasFenceRunL, Bool.false_eq_true, false_iff]
      rintro ⟨pre, c, post, h, -⟩
      have := congrArg List.length h
      simp only [List.length_cons, List.length_nil, List.length_append] at this
      omega
    | cons b l2 =>
      cases l2 with
      | nil =>
        simp only [hasFenceRunL, Bool.false_eq_true, false_iff]
        rintro ⟨pre, c, post, h, -⟩
        have := congrArg List.length h
        simp only [List.length_cons, List.length_nil, List.length_append] at this
        omega
      | cons e l3 =>
        simp only [hasFenceRunL, Bool.or_eq_true, Bool.and_eq_true, decide_eq_true_eq]
        constructor
        · rintro (⟨⟨hab, hbe⟩, hc⟩ | hrest)
          · subst hab
            subst hbe
            exact ⟨[], a, l3, rfl, hc⟩
          · obtain ⟨pre, c, post, heq, hc⟩ := (ih).mp hrest
            exact ⟨a :: pre, c, post, by simp [heq], hc⟩
        · rintro ⟨pre, c, post, heq, hc⟩
          cases pre with
          | nil =>
            simp only [List.nil_append, List.cons.injEq] at heq
            obtain ⟨h1, h2, h3, h4⟩ := heq
            subst h1
            subst h2
            subst h3
            exact Or.inl ⟨⟨rfl, rfl⟩, hc⟩
          | cons p pre2 =>
            simp only [List.cons_append, List.cons.injEq] at heq
            exact Or.inr (ih.mpr ⟨pre2, c, post, heq.2, hc⟩)

/-- C1 counterexample: the footnoteDefinition case hands `fill` the
two-element sequence `[line, content]` (here with the concrete definition
`[^x]:` having no children, so `content = concat []`): an even-length
sequence, which the construction-time contract of the fill builder rejects.
The claim that no Transformer case triggers that rejection is therefore
false. -/
theorem c1_counterexample :
    genericPrintNode ctx0 1 none fnDef0 =
      .ok (.group (.concat [.fill [.text "[^x]:"], .ifBreak .softline (.text ""),
        .indent (.fill [Doc.line, .concat []])]), fnDef0) ∧
    ¬ fillOk [Doc.line, Doc.concat []] :=
  ⟨rfl, by decide⟩

/-- C1 (amended): the fill sequences the Transformer builds from non-empty
text via `textToWords` (the definition identifier/url and title fills and
the footnoteDefinition tag fill) do have odd length, with word content at
even positions and `line` separators at odd positions; but the
footnoteDefinition case additionally wraps its content in a fill whose
sequence is always the two-element `[line, content]`, so the Transformer
does pass `fill` even-length sequences. -/
theorem c1_amended_thm :
    (∀ ctx t se sesc, t ≠ "" →
      fillOk (textToWords ctx t se sesc) ∧
      ∀ i (h : i < (textToWords ctx t se sesc).length),
        (i % 2 = 1 → (textToWords ctx t se sesc).get ⟨i, h⟩ = Doc.line) ∧
        (i % 2 = 0 → ∃ s, (textToWords ctx t se sesc).get ⟨i, h⟩ = Doc.text s)) ∧
    (∀ ctx fuel parent n d n', n.ty = "footnoteDefinition" →
      genericPrintNode ctx (fuel + 1) parent n = .ok (d, n') →
      ∃ content,
        d = .group (.concat [
          .fill (textToWords ctx ("[^" ++ jsToLower n.identifier ++ "]:") false false),
          .ifBreak .softline (.text ""),
          .indent (.fill [Doc.line, content])]) ∧
        ¬ fillOk [Doc.line, content]) := by
  constructor
  · intro ctx t se sesc ht
    exact textToWords_spec ctx t se sesc ht
  · intro ctx fuel parent n d n' hty h
    obtain ⟨ty, value, lang, ordered, identifier, url, title, alt, referenceType, children⟩ := n
    simp only [Node.ty] at hty
    subst hty
    simp only [genericPrintNode, String.reduceEq, reduceIte] at h
    split at h
    · exact absurd h (by simp)
    · rename_i bd cs' heq
      simp only [Except.ok.injEq, Prod.mk.injEq] at h
      exact ⟨bd, h.1.symm, by simp [fillOk]⟩

/-- C1 witness: the amended theorem applied to the non-empty tag text
`[^x]:` and to the concrete footnote definition `fnDef0`. -/
theorem c1_amended_witness :
    fillOk (textToWords ctx0 "[^x]:" false false) ∧
    ∃ content,
      Doc.group (.concat [.fill [.text "[^x]:"], .ifBreak .softline (.text ""),
        .indent (.fill [Doc.line, .concat []])]) =
      .group (.concat [
        .fill (textToWords ctx0 ("[^" ++ jsToLower fnDef0.identifier ++ "]:") false false),
        .ifBreak .softline (.text ""),
        .indent (.fill [Doc.line, content])]) ∧
      ¬ fillOk [Doc.line, content] :=
  ⟨(c1_amended_thm.1 ctx0 "[^x]:" false false (by decide)).1,
   c1_amended_thm.2 ctx0 0 none fnDef0 _ fnDef0 rfl rfl⟩

/-- C2 counterexample: a footnote whose single child is an emphasis node
prints the child to a Doc with two levels of Concat nesting; the sequence
the printer hands to `fill` is the twice-flattened `[*, a, line, b, *]`,
not the once-flattened sequence (which still contains the inner Concat),
so the flattening before the fill wrap is not `exactly once`. -/
theorem c2_counterexample :
    genericPrintNode ctx0 3 none fn0 =
      .ok (.concat [.text "[^",
        .fill [.text "*", .text "a", Doc.line, .text "b", .text "*"], .text "]"], fn0) ∧
    printChildren (genericPrintNode ctx0 2 (some fn0)) fn0.children =
      .ok ([emphDoc0], [emphNode0]) ∧
    flattenOnce [emphDoc0] =
      [.text "*", .concat [.text "a", Doc.line, .text "b"], .text "*"] ∧
    ([Doc.text "*", .text "a", Doc.line, .text "b", .text "*"] : List Doc) ≠
      [.text "*", .concat [.text "a", Doc.line, .text "b"], .text "*"] :=
  ⟨rfl, rfl, rfl, by simp⟩

/-- C2 (amended): in the footnote and paragraph cases the child-Doc
sequence is splice-flattened exactly twice before being wrapped in Fill:
the sequence handed to `fill` equals the children sequence with each
direct Concat element replaced by its parts and, within those parts, each
direct Concat again replaced by its parts; nesting deeper than two levels
is preserved, and each single `flattenOnce` application is non-recursive. -/
theorem c2_amended_thm :
    (∀ ds : List Doc, flattenOnce (flattenOnce ds) = spliceTwo ds) ∧
    (∀ ctx fuel parent n d n', n.ty = "footnote" →
      genericPrintNode ctx (fuel + 1) parent n = .ok (d, n') →
      ∃ ds cs',
        printChildren (genericPrintNode ctx fuel (some n)) n.children = .ok (ds, cs') ∧
        d = .concat [.text "[^", .fill (spliceTwo ds), .text "]"]) ∧
    (∀ ctx fuel parent n d n', n.ty = "paragraph" →
      genericPrintNode ctx (fuel + 1) parent n = .ok (d, n') →
      ∃ par2 ds cs',
        printChildren (genericPrintNode ctx fuel par2)
          (trimFirstTextChild n.children) = .ok (ds, cs') ∧
        d = .fill (spliceTwo (intersperse Doc.softline ds))) := by
  refine ⟨flattenOnce_flattenOnce, ?_, ?_⟩
  · intro ctx fuel parent n d n' hty h
    obtain ⟨ty, value, lang, ordered, identifier, url, title, alt, referenceType, children⟩ := n
    simp only [Node.ty] at hty
    subst hty
    simp only [genericPrintNode, String.reduceEq, reduceIte] at h
    split at h
    · exact absurd h (by simp)
    · rename_i ds cs' heq
      simp only [Except.ok.injEq, Prod.mk.injEq] at h
      exact ⟨ds, cs', heq, by rw [← h.1, flattenOnce_flattenOnce]⟩
  · intro ctx fuel parent n d n' hty h
    obtain ⟨ty, value, lang, ordered, identifier, url, title, alt, referenceType, children⟩ := n
    simp only [Node.ty] at hty
    subst hty
    simp only [genericPrintNode, String.reduceEq, reduceIte] at h
    split at h
    · exact absurd h (by simp)
    · rename_i ds cs' heq
      simp only [Except.ok.injEq, Prod.mk.injEq] at h
      exact ⟨_, ds, cs', heq, by rw [← h.1, flattenOnce_flattenOnce]⟩

/-- C2 witness: the amended footnote clause applied to the concrete
footnote `fn0`. -/
theorem c2_amended_witness :
    ∃ ds cs',
      printChildren (genericPrintNode ctx0 2 (some fn0)) fn0.children = .ok (ds, cs') ∧
      Doc.concat [.text "[^",
        .fill [.text "*", .text "a", Doc.line, .text "b", .text "*"], .text "]"] =
      .concat [.text "[^", .fill (spliceTwo ds), .text "]"] :=
  c2_amended_thm.2.1 ctx0 2 none fn0
    (.concat [.text "[^",
      .fill [.text "*", .text "a", Doc.line, .text "b", .text "*"], .text "]"])
    fn0 rfl rfl

/-- C3: printing a block container joins adjacent siblings exactly as the
claim states.  First, the `printBlock` loop (over any child printer that
preserves the `type`, `ordered` and `lang` fields, as the real printer
does) produces precisely the child Docs interleaved with `claimSep` of
each adjacent original sibling pair: two hard lines by default, three
between two list siblings with equal `ordered` flags, two between two list
siblings with different flags, and three between a list and a code sibling
without a language tag.  Second, the root and blockquote cases of the
printer delegate to exactly this loop. -/
theorem c3_thm :
    (∀ (pr : Node → Except PrintError (Doc × Node)) cs ds cs',
      (∀ c d c', pr c = .ok (d, c') →
        c'.ty = c.ty ∧ c'.ordered = c.ordered ∧ c'.lang = c.lang) →
      printBlockGo pr none cs = .ok (ds, cs') →
      ∃ pairs : List (Doc × Node), pairs.map Prod.snd = cs ∧
        (∀ p ∈ pairs, ∃ c', pr p.2 = .ok (p.1, c')) ∧
        ds = joinClaimFrom none pairs) ∧
    (∀ ctx fuel parent n d n',
      genericPrintNode ctx (fuel + 1) parent n = .ok (d, n') →
      (n.ty = "root" →
        ∃ ds cs',
          printBlockGo (genericPrintNode ctx fuel (some n)) none n.children =
            .ok (ds, cs') ∧ d = .concat [.concat ds, .hardline]) ∧
      (n.ty = "blockquote" →
        ∃ ds cs',
          printBlockGo (genericPrintNode ctx fuel (some n)) none n.children =
            .ok (ds, cs') ∧ d = .markerBlock "> " (.concat ds))) := by
  constructor
  · intro pr cs ds cs' hpr h
    exact printBlockGo_join hpr cs none ds cs' h
  · intro ctx fuel parent n d n' h
    obtain ⟨ty, value, lang, ordered, identifier, url, title, alt, referenceType, children⟩ := n
    constructor
    · intro hty
      simp only [Node.ty] at hty
      subst hty
      simp only [genericPrintNode, String.reduceEq, reduceIte, printBlock] at h
      split at h
      · exact absurd h (by simp)
      · rename_i res bd cs2 heq
        split at heq
        · exact absurd heq (by simp)
        · rename_i ds2 cs3 heq2
          simp only [Except.ok.injEq, Prod.mk.injEq] at heq h
          refine ⟨ds2, cs3, heq2, ?_⟩
          rw [← h.1, ← heq.1]
    · intro hty
      simp only [Node.ty] at hty
      subst hty
      simp only [genericPrintNode, String.reduceEq, reduceIte,
        printBlockWithLeftMarkers, printBlock] at h
      split at h
      · exact absurd h (by simp)
      · rename_i res bd cs2 heq
        split at heq
        · exact absurd heq (by simp)
        · rename_i res2 bd2 cs3 heq1
          split at heq1
          · exact absurd heq1 (by simp)
          · rename_i ds2 cs4 heq2
            simp only [Except.ok.injEq, Prod.mk.injEq] at heq1 heq h
            refine ⟨ds2, cs4, heq2, ?_⟩
            rw [← h.1, ← heq.1, ← heq1.1]

/-- C3 witness: the join rule applied to a concrete sibling sequence that
exercises every branch (ordered list twice, then an unordered list, then a
language-less code block, then a text node), with the stub child printer. -/
theorem c3_witness :
    ∃ pairs : List (Doc × Node), pairs.map Prod.snd = blockKids ∧
      (∀ p ∈ pairs, ∃ c', prStub p.2 = .ok (p.1, c')) ∧
      [Doc.text "list", hardlinex3, .text "list", hardlinex2, .text "list",
        hardlinex3, .text "code", hardlinex2, .text "text"] =
        joinClaimFrom none pairs :=
  c3_thm.1 prStub blockKids
    [Doc.text "list", hardlinex3, .text "list", hardlinex2, .text "list",
      hardlinex3, .text "code", hardlinex2, .text "text"]
    blockKids
    (by intro c d c' h; simp only [prStub, Except.ok.injEq, Prod.mk.injEq] at h;
        rw [← h.2]; exact ⟨rfl, rfl, rfl⟩)
    rfl

/-- C5 counterexample: the code value consisting of four backticks contains
the substring of three backticks and is printed with backtick fences, yet
the emitted fence is a five-backtick run, not a four-backtick run (the
fence length is the longest run plus one, which here is five). -/
theorem c5_counterexample :
    [backtickChar, backtickChar, backtickChar] <:+: ("````" : String).data ∧
    genericPrintNode ctx0 1 none code4bt =
      .ok (.concat [.text (String.mk (List.replicate 5 backtickChar)), .text "js",
        .hardline, .indent (.text "````"), .hardline,
        .text (String.mk (List.replicate 5 backtickChar))], code4bt) ∧
    String.mk (List.replicate 5 backtickChar) ≠ String.mk (List.replicate 4 backtickChar) :=
  ⟨by decide, rfl, by decide⟩

/-- C5 (amended): for every code node taking the fenced path, the emitted
fence is the configured fence character repeated `max(L + 1, 3)` times,
where `L` is the length of the longest run of that character in the value;
hence the fence is strictly longer than any same-character run embedded in
the value and never shorter than three, and a value whose longest run of
the fence character has length exactly three is fenced with a run of
four. -/
theorem c5_amended_thm :
    ∀ ctx fuel parent n, n.ty = "code" →
      ¬(ctx.enc n.lang = "" ∧ ctx.opts.fences = false ∧ n.value ≠ "") →
      ∃ vd, genericPrintNode ctx (fuel + 1) parent n =
          .ok (.concat [
            .text (String.mk (List.replicate
              (max (longestStreak n.value ctx.opts.fence + 1) 3) ctx.opts.fence)),
            .text (ctx.enc n.lang), .hardline, vd, .hardline,
            .text (String.mk (List.replicate
              (max (longestStreak n.value ctx.opts.fence + 1) 3) ctx.opts.fence))], n) ∧
        (String.mk (List.replicate
          (max (longestStreak n.value ctx.opts.fence + 1) 3) ctx.opts.fence)).length =
          max (longestStreak n.value ctx.opts.fence + 1) 3 ∧
        longestStreak n.value ctx.opts.fence <
          max (longestStreak n.value ctx.opts.fence + 1) 3 ∧
        3 ≤ max (longestStreak n.value ctx.opts.fence + 1) 3 ∧
        (longestStreak n.value ctx.opts.fence = 3 →
          max (longestStreak n.value ctx.opts.fence + 1) 3 = 4) := by
  intro ctx fuel parent n hty hcond
  obtain ⟨ty, value, lang, ordered, identifier, url, title, alt, referenceType, children⟩ := n
  simp only [Node.ty] at hty
  subst hty
  simp only [Node.value, Node.lang] at hcond ⊢
  refine ⟨if hasFenceRun value then Doc.indent (.text value) else .text value, ?_, ?_, ?_, ?_, ?_⟩
  · simp only [genericPrintNode, String.reduceEq, reduceIte]
    rw [if_neg hcond]
  · simp [String.length, List.length_replicate]
  · omega
  · omega
  · intro h3
    omega

/-- C5 witness: the amended theorem at the concrete code node whose value
is exactly three backticks (fence of four backticks). -/
theorem c5_amended_witness :
    ∃ vd, genericPrintNode ctx0 1 none code3bt =
        .ok (.concat [
          .text (String.mk (List.replicate
            (max (longestStreak code3bt.value ctx0.opts.fence + 1) 3) ctx0.opts.fence)),
          .text (ctx0.enc code3bt.lang), .hardline, vd, .hardline,
          .text (String.mk (List.replicate
            (max (longestStreak code3bt.value ctx0.opts.fence + 1) 3) ctx0.opts.fence))],
          code3bt) ∧
      (String.mk (List.replicate
        (max (longestStreak code3bt.value ctx0.opts.fence + 1) 3) ctx0.opts.fence)).length =
        max (longestStreak code3bt.value ctx0.opts.fence + 1) 3 ∧
      longestStreak code3bt.value ctx0.opts.fence <
        max (longestStreak code3bt.value ctx0.opts.fence + 1) 3 ∧
      3 ≤ max (longestStreak code3bt.value ctx0.opts.fence + 1) 3 ∧
      (longestStreak code3bt.value ctx0.opts.fence = 3 →
        max (longestStreak code3bt.value ctx0.opts.fence + 1) 3 = 4) :=
  c5_amended_thm ctx0 0 none code3bt rfl (by decide)

/-- C6 counterexample: a code node whose value is three tildes, printed
with the backtick fence, is defensively indented even though the value
contains no run of the configured fence character at all (its longest
backtick run has length zero): the FENCE test fires on a run of either
fence-like character, not only the configured one, refuting the claimed
`if and only if`. -/
theorem c6_counterexample :
    genericPrintNode ctx0 1 none codeTilde =
      .ok (.concat [.text (String.mk (List.replicate 3 backtickChar)), .text "js",
        .hardline, .indent (.text "~~~"), .hardline,
        .text (String.mk (List.replicate 3 backtickChar))], codeTilde) ∧
    longestStreak "~~~" backtickChar = 0 :=
  ⟨rfl, rfl⟩

/-- C6 (amended): for every code node taking the fenced path, the value is
defensively indented if and only if it contains three consecutive equal
characters each of which is a backtick or a tilde (a fence-like run of
either character, regardless of the configured fence character); otherwise
the value is placed between the fences unmodified. -/
theorem c6_amended_thm :
    ∀ ctx fuel parent n, n.ty = "code" →
      ¬(ctx.enc n.lang = "" ∧ ctx.opts.fences = false ∧ n.value ≠ "") →
      ∃ f, genericPrintNode ctx (fuel + 1) parent n =
          .ok (.concat [.text f, .text (ctx.enc n.lang), .hardline,
            (if hasFenceRun n.value then Doc.indent (.text n.value) else .text n.value),
            .hardline, .text f], n) ∧
        (hasFenceRun n.value = true ↔
          ∃ pre c post, n.value.data = pre ++ c :: c :: c :: post ∧
            (c = backtickChar ∨ c = '~')) := by
  intro ctx fuel parent n hty hcond
  obtain ⟨ty, value, lang, ordered, identifier, url, title, alt, referenceType, children⟩ := n
  simp only [Node.ty] at hty
  subst hty
  simp only [Node.value, Node.lang] at hcond ⊢
  refine ⟨String.mk (List.replicate
    (max (longestStreak value ctx.opts.fence + 1) 3) ctx.opts.fence), ?_,
    hasFenceRunL_iff value.data⟩
  simp only [genericPrintNode, String.reduceEq, reduceIte]
  rw [if_neg hcond]

/-- C6 witness: the amended theorem at the tilde-valued code node, whose
value does contain a fence-like triple (of tildes). -/
theorem c6_amended_witness :
    ∃ f, genericPrintNode ctx0 1 none codeTilde =
        .ok (.concat [.text f, .text (ctx0.enc codeTilde.lang), .hardline,
          (if hasFenceRun codeTilde.value then Doc.indent (.text codeTilde.value)
           else .text codeTilde.value),
          .hardline, .text f], codeTilde) ∧
      (hasFenceRun codeTilde.value = true ↔
        ∃ pre c post, codeTilde.value.data = pre ++ c :: c :: c :: post ∧
          (c = backtickChar ∨ c = '~')) :=
  c6_amended_thm ctx0 0 none codeTilde rfl (by decide)

/-- C7: in the default configuration a break node prints as a single hard
line, as claimed; but in commonmark mode the printed Doc contains only the
backslash text and no hard line, because the source calls the unary
`concat` builder as `concat("\\", hardline)` and JavaScript discards the
second argument — the Doc differs from the intended
`concat([backslash, hardline])`. -/
theorem c7_thm :
    genericPrintNode ctx0 1 none break0 = .ok (.hardline, break0) ∧
    genericPrintNode ctxCM 1 none break0 = .ok (.concat [.text "\\"], break0) ∧
    Doc.concat [.text "\\"] ≠ .concat [.text "\\", .hardline] :=
  ⟨rfl, rfl, by simp⟩

/-- C8: a code node with no language tag, fencing disabled and a non-empty
value raises the indented-code error exactly when the parent is a listItem
node, the list-item indent setting is not `tab`, and pedantic mode is on;
in every other such configuration the value is emitted as an indented
block without error. -/
theorem c8_thm :
    ∀ ctx fuel parent n, n.ty = "code" → n.lang = "" → ctx.enc "" = "" →
      ctx.opts.fences = false → n.value ≠ "" →
      ((genericPrintNode ctx (fuel + 1) parent n = .error .indentedCode) ↔
        (parentIsListItem parent = true ∧ ctx.opts.listItemIndent ≠ "tab" ∧
          ctx.opts.pedantic = true)) ∧
      (¬(parentIsListItem parent = true ∧ ctx.opts.listItemIndent ≠ "tab" ∧
          ctx.opts.pedantic = true) →
        genericPrintNode ctx (fuel + 1) parent n = .ok (.indent (.text n.value), n)) ∧
      (parentIsListItem parent = true ↔ ∃ p, parent = some p ∧ p.ty = "listItem") := by
  intro ctx fuel parent n hty hlang henc hfen hval
  obtain ⟨ty, value, lang, ordered, identifier, url, title, alt, referenceType, children⟩ := n
  simp only [Node.ty] at hty
  subst hty
  simp only [Node.lang] at hlang
  subst hlang
  simp only [Node.value] at hval ⊢
  have hguard : ctx.enc "" = "" ∧ ctx.opts.fences = false ∧ value ≠ "" := ⟨henc, hfen, hval⟩
  refine ⟨?_, ?_, ?_⟩
  · simp only [genericPrintNode, String.reduceEq, reduceIte]
    rw [if_pos hguard]
    by_cases hg : parentIsListItem parent = true ∧ ctx.opts.listItemIndent ≠ "tab" ∧
        ctx.opts.pedantic = true
    · rw [if_pos hg]
      simp [hg]
    · rw [if_neg hg]
      simp [hg]
  · intro hg
    simp only [genericPrintNode, String.reduceEq, reduceIte]
    rw [if_pos hguard, if_neg hg]
  · cases parent with
    | none => simp [parentIsListItem]
    | some p => simp [parentIsListItem]

/-- C8 witness: with pedantic mode on, fences off and a listItem parent
the error is raised; with the same options but no parent the value is
emitted as an indented block. -/
theorem c8_witness :
    genericPrintNode ctxPed 1 (some listItem0) codeNoLang = .error .indentedCode ∧
    genericPrintNode ctxPed 1 none codeNoLang =
      .ok (.indent (.text codeNoLang.value), codeNoLang) :=
  ⟨(c8_thm ctxPed 0 (some listItem0) codeNoLang rfl rfl rfl rfl (by decide)).1.mpr
      (by decide),
   (c8_thm ctxPed 0 none codeNoLang rfl rfl rfl rfl (by decide)).2.1 (by decide)⟩

/-- C9: the dispatcher yields the empty string for a missing node, returns
a string input unchanged, raises an error naming the type of the node exactly
when the type of a record node matches none of the handled cases, and every
unknown-type error it ever raises names an unhandled type (so a handled
node is never rejected with its own type). -/
theorem c9_thm :
    (∀ ctx fuel parent, genericPrint ctx fuel parent none = .ok (.text "")) ∧
    (∀ ctx fuel parent s, genericPrint ctx fuel parent (some (.inl s)) = .ok (.text s)) ∧
    (∀ ctx fuel parent n, n.ty ∉ handledTypes →
      genericPrint ctx (fuel + 1) parent (some (.inr n)) = .error (.unknownType n.ty)) ∧
    (∀ ctx fuel parent n t,
      genericPrint ctx fuel parent (some (.inr n)) = .error (.unknownType t) →
      t ∉ handledTypes) := by
  refine ⟨fun ctx fuel parent => rfl, fun ctx fuel parent s => rfl, ?_, ?_⟩
  · intro ctx fuel parent n hty
    obtain ⟨ty, value, lang, ordered, identifier, url, title, alt, referenceType, children⟩ := n
    simp only [Node.ty] at hty ⊢
    simp only [handledTypes, List.mem_cons, List.not_mem_nil, or_false, not_or] at hty
    obtain ⟨k1, k2, k3, k4, k5, k6, k7, k8, k9, k10, k11, k12, k13, k14, k15, k16⟩ := hty
    simp [genericPrint, genericPrintNode, k1, k2, k3, k4, k5, k6, k7, k8, k9, k10, k11,
      k12, k13, k14, k15, k16]
  · intro ctx fuel parent n t h
    simp only [genericPrint] at h
    split at h
    · rename_i e heq
      simp only [Except.error.injEq] at h
      subst h
      exact genericPrintNode_errU fuel ctx parent n t heq
    · exact absurd h (by simp)

/-- C9 witness: the dispatcher at a concrete `list` node (an unhandled
type) and the closed null and string behaviours. -/
theorem c9_witness :
    genericPrint ctx0 1 none (some (.inr listNode0)) = .error (.unknownType "list") ∧
    genericPrint ctx0 1 none none = .ok (.text "") ∧
    genericPrint ctx0 1 none (some (.inl "hello")) = .ok (.text "hello") :=
  ⟨c9_thm.2.2.1 ctx0 0 none listNode0 (by decide),
   c9_thm.1 ctx0 1 none,
   c9_thm.2.1 ctx0 1 none "hello"⟩

/-- C10: printing mutates the AST exactly as the pure map `astTransform`
describes: whenever a print succeeds, the post-print node is
`astTransform` of the input, and `astTransform` trims the leading
whitespace of the first text child of each recursively printed paragraph
and changes nothing else — it preserves every non-children field of every
node and is the identity on every node type whose case does not recurse
into children. -/
theorem c10_thm :
    (∀ ctx fuel parent n d n',
      genericPrintNode ctx fuel parent n = .ok (d, n') → n' = astTransform n) ∧
    (∀ c rest, c.ty = "text" →
      trimFirstTextChild (c :: rest) = c.setValue (trimLeading c.value) :: rest) ∧
    (∀ n, (astTransform n).ty = n.ty ∧ (astTransform n).value = n.value ∧
      (astTransform n).lang = n.lang ∧ (astTransform n).ordered = n.ordered ∧
      (astTransform n).identifier = n.identifier ∧ (astTransform n).url = n.url ∧
      (astTransform n).title = n.title ∧ (astTransform n).alt = n.alt ∧
      (astTransform n).referenceType = n.referenceType) ∧
    (∀ n, n.ty ∉ ["root", "blockquote", "footnoteDefinition", "footnote", "delete",
        "emphasis", "strong", "paragraph"] → astTransform n = n) := by
  refine ⟨fun ctx fuel => genericPrintNode_sim fuel ctx, ?_, astTransform_fields, ?_⟩
  · intro c rest hty
    simp [trimFirstTextChild, hty]
  · intro n hty
    obtain ⟨ty, value, lang, ordered, identifier, url, title, alt, referenceType, children⟩ := n
    simp only [Node.ty] at hty
    simp only [List.mem_cons, List.not_mem_nil, or_false, not_or] at hty
    obtain ⟨k1, k2, k3, k4, k5, k6, k7, k8⟩ := hty
    simp [astTransform, k1, k2, k3, k4, k5, k6, k7, k8]

/-- C10 witness: printing the concrete paragraph whose first text child is
` a b` succeeds, returns the paragraph with the value of that child trimmed to
`a b`, and that post-print node is exactly `astTransform` of the input. -/
theorem c10_witness :
    genericPrintNode ctx0 2 none para0 =
      .ok (.fill [.text "a", Doc.line, .text "b"], para0After) ∧
    para0After = astTransform para0 :=
  ⟨rfl, c10_thm.1 ctx0 2 none para0 (.fill [.text "a", Doc.line, .text "b"]) para0After rfl⟩
